import Mathlib

/-!
# CaloRecoTauProducer and DDHCalLinearXY

A shallow embedding of

* `CaloRecoTauProducer::produce` (RecoTauTag/RecoTau/plugins/CaloRecoTauProducer.cc), and
* `DDHCalLinearXY::execute` (Geometry/HcalAlgo/plugins/DDHCalLinearXY.cc),

followed by the properties of the two functions.

Conventions of the embedding.

* `double` values are elements of an arbitrary type `R` carrying just the operations the code
  uses (`*`, `+`, `-`, `/`, `>`, the literals); nothing is assumed about them unless a theorem
  says so, so the statements hold for IEEE arithmetic as well as for exact arithmetic.
* Collaborators whose code lives elsewhere (the tau algorithm, the random engine, the name
  splitter) are parameters.
* The counters `int iinfo` and `unsigned int i` of `produce` index collections held in
  memory and are unbounded integers.  The counter `int copy` of `execute` is a 32-bit integer:
  its increment wraps modulo `2^32`, and so does its conversion to `unsigned int`.
-/

set_option autoImplicit false

namespace CaloRecoTau

/-! ## Data model -/

/-- Symmetric 3x3 matrix `Vertex::Error`: the lower triangle is stored, entry `(i, j)` and
entry `(j, i)` share their storage. -/
structure Error (R : Type) where
  c00 : R
  c10 : R
  c11 : R
  c20 : R
  c21 : R
  c22 : R
  deriving DecidableEq, Repr

/-- Modelled from the spec: the default constructor of `Vertex::Error` (declared outside the
plugin) gives the matrix whose entries are all zero. -/
def Error.zero {R : Type} [Zero R] : Error R :=
  { c00 := 0, c10 := 0, c11 := 0, c20 := 0, c21 := 0, c22 := 0 }

/-- Read access `e(i, j)`. -/
def Error.get {R : Type} (e : Error R) (i j : Fin 3) : R :=
  match i, j with
  | 0, 0 => e.c00
  | 1, 0 => e.c10
  | 0, 1 => e.c10
  | 1, 1 => e.c11
  | 2, 0 => e.c20
  | 0, 2 => e.c20
  | 2, 1 => e.c21
  | 1, 2 => e.c21
  | 2, 2 => e.c22

/-- Write access `e(i, j) = v`. -/
def Error.set {R : Type} (e : Error R) (i j : Fin 3) (v : R) : Error R :=
  match i, j with
  | 0, 0 => { e with c00 := v }
  | 1, 0 => { e with c10 := v }
  | 0, 1 => { e with c10 := v }
  | 1, 1 => { e with c11 := v }
  | 2, 0 => { e with c20 := v }
  | 0, 2 => { e with c20 := v }
  | 2, 1 => { e with c21 := v }
  | 1, 2 => { e with c21 := v }
  | 2, 2 => { e with c22 := v }

/-- Three coordinates `Vertex::Point`. -/
structure Point (R : Type) where
  x : R
  y : R
  z : R
  deriving DecidableEq, Repr

/-- Modelled from the spec: `reco::Vertex` (declared outside the plugin) as the record of what
its constructor `Vertex(point, error, chi2, ndof, size)` is given: a position, a covariance
and the quality/multiplicity fields. -/
structure Vertex (R : Type) where
  position : Point R
  error : Error R
  chi2 : R
  ndof : R
  size : Nat
  deriving DecidableEq, Repr

/-- The configuration members of the producer read by `produce`. -/
structure Config (R : Type) where
  smearedPVsigmaX_ : R
  smearedPVsigmaY_ : R
  smearedPVsigmaZ_ : R
  JetMinPt_ : R
  deriving DecidableEq, Repr

/-- A reference `Ref<CaloTauTagInfoCollection>(handle, key)` into the input collection. -/
structure Ref (Item : Type) where
  product : List Item
  key : Nat
  deriving DecidableEq, Repr

/-- The two event products `produce` reads by label. -/
structure Event (Item R : Type) where
  vertices : List (Vertex R)
  tagInfos : List Item

/-- The two records `produce` asks the event setup for; `none` is a record that cannot be
obtained. -/
structure EventSetup (TTB MF : Type) where
  transientTrackBuilder : Option TTB
  magneticField : Option MF

/-- Failure of an event. -/
inductive Failure where
  | MissingDependency
  deriving DecidableEq, Repr

/-- Modelled from the spec: the event-setup lookup `iSetup.get<Record>().get(handle)` (framework
code outside the plugin) raises `MissingDependency` when the record cannot be obtained. -/
def getRecord {A : Type} (r : Option A) : Except Failure A :=
  match r with
  | some a => Except.ok a
  | none => Except.error Failure.MissingDependency

/-- The interface of `CaloRecoTauAlgorithm` used by `produce`, over the algorithm's state `S`:
the two setters, `buildCaloTau`, and the public member `mySelectedDetId_`. -/
structure CaloRecoTauAlgorithm (S TTB MF Item R C D : Type) where
  setTransientTrackBuilder : S → TTB → S
  setMagneticField : S → MF → S
  buildCaloTau : S → Event Item R → EventSetup TTB MF → Ref Item → Vertex R → C × S
  mySelectedDetId_ : S → List D

/-- The order in which the three `RandGauss::shoot` arguments of the `SimPVPoint` constructor
are evaluated.  C++ leaves the order of evaluation of the arguments of a call unspecified, so
every order is a behaviour of the source; `xyz` is left to right, `zyx` right to left. -/
inductive ArgOrder where
  | xyz
  | xzy
  | yxz
  | yzx
  | zxy
  | zyx
  deriving DecidableEq, Repr

/-- The two collections put into the event. -/
structure Products (C D : Type) where
  resultCaloTau : List C
  selectedDetIds : List D
  deriving DecidableEq, Repr

/-! ## `CaloRecoTauProducer::produce` -/

section Produce

variable {R G S TTB MF Item C D : Type}

/-- The construction `SimPVPoint(shoot(0, sX), shoot(0, sY), shoot(0, sZ))` (lines 92-94):
`shoot g mean sigma` is `CLHEP::RandGauss::shoot(mean, sigma)` on the engine state `g`. -/
def SimPVPoint [Zero R] (shoot : G → R → R → R × G) (o : ArgOrder) (sX sY sZ : R) (g : G) :
    Point R × G :=
  match o with
  | ArgOrder.xyz =>
    let x := shoot g 0 sX
    let y := shoot x.2 0 sY
    let z := shoot y.2 0 sZ
    (⟨x.1, y.1, z.1⟩, z.2)
  | ArgOrder.xzy =>
    let x := shoot g 0 sX
    let z := shoot x.2 0 sZ
    let y := shoot z.2 0 sY
    (⟨x.1, y.1, z.1⟩, y.2)
  | ArgOrder.yxz =>
    let y := shoot g 0 sY
    let x := shoot y.2 0 sX
    let z := shoot x.2 0 sZ
    (⟨x.1, y.1, z.1⟩, z.2)
  | ArgOrder.yzx =>
    let y := shoot g 0 sY
    let z := shoot y.2 0 sZ
    let x := shoot z.2 0 sX
    (⟨x.1, y.1, z.1⟩, x.2)
  | ArgOrder.zxy =>
    let z := shoot g 0 sZ
    let x := shoot z.2 0 sX
    let y := shoot x.2 0 sY
    (⟨x.1, y.1, z.1⟩, y.2)
  | ArgOrder.zyx =>
    let z := shoot g 0 sZ
    let y := shoot z.2 0 sY
    let x := shoot y.2 0 sX
    (⟨x.1, y.1, z.1⟩, x.2)

/-- The matrix `SimPVError` after lines 88-91. -/
def SimPVError [Zero R] [Mul R] (cfg : Config R) : Error R :=
  ((Error.zero.set 0 0 (cfg.smearedPVsigmaX_ * cfg.smearedPVsigmaX_)).set 1 1
    (cfg.smearedPVsigmaY_ * cfg.smearedPVsigmaY_)).set 2 2
    (cfg.smearedPVsigmaZ_ * cfg.smearedPVsigmaZ_)

/-- The vertex `thePV` of lines 81-96: the first vertex of the collection when there is one,
otherwise a vertex made from three Gaussian samples. -/
def thePV [Zero R] [One R] [Mul R] (cfg : Config R) (shoot : G → R → R → R × G) (o : ArgOrder)
    (vertCollection : List (Vertex R)) (g : G) : Vertex R × G :=
  match vertCollection with
  | v :: _ => (v, g)
  | [] =>
    let err := SimPVError cfg
    let p := SimPVPoint shoot o cfg.smearedPVsigmaX_ cfg.smearedPVsigmaY_ cfg.smearedPVsigmaZ_ g
    (Vertex.mk p.1 err 1 1 1, p.2)

/-- The loop of lines 100-107 from iterator position `rest` on, `iinfo` being the counter,
`s` the algorithm's state and `resultCaloTau` the collection built so far. -/
def tauLoop [LT R] [DecidableRel (fun a b : R => a < b)]
    (alg : CaloRecoTauAlgorithm S TTB MF Item R C D) (JetMinPt_ : R) (pt : Item → R)
    (iEvent : Event Item R) (iSetup : EventSetup TTB MF) (pv : Vertex R) :
    List Item → Nat → S → List C → List C × S
  | [], _, s, resultCaloTau => (resultCaloTau, s)
  | i_info :: rest, iinfo, s, resultCaloTau =>
    if pt i_info > JetMinPt_ then
      let myCaloTau := alg.buildCaloTau s iEvent iSetup ⟨iEvent.tagInfos, iinfo⟩ pv
      tauLoop alg JetMinPt_ pt iEvent iSetup pv rest (iinfo + 1) myCaloTau.2
        (resultCaloTau ++ [myCaloTau.1])
    else
      tauLoop alg JetMinPt_ pt iEvent iSetup pv rest (iinfo + 1) s resultCaloTau

/-- The loop of lines 108-109 from index `i` on: `selectedDetIds->push_back(ids[i])`. -/
def detIdLoop (ids : List D) (i : Nat) (selectedDetIds : List D) : List D :=
  if h : i < ids.length then
    detIdLoop ids (i + 1) (selectedDetIds ++ [ids.get ⟨i, h⟩])
  else
    selectedDetIds
termination_by ids.length - i

/-- The function `CaloRecoTauProducer::produce`.  The result is what is put into the event (or
the failure that ends the event), together with the state of the algorithm and of the random
engine when `produce` is left. -/
def produce [Zero R] [One R] [Mul R] [LT R] [DecidableRel (fun a b : R => a < b)]
    (alg : CaloRecoTauAlgorithm S TTB MF Item R C D) (cfg : Config R) (pt : Item → R)
    (shoot : G → R → R → R × G) (o : ArgOrder)
    (iEvent : Event Item R) (iSetup : EventSetup TTB MF) (s : S) (g : G) :
    Except Failure (Products C D) × S × G :=
  match getRecord iSetup.transientTrackBuilder with
  | Except.error e => (Except.error e, s, g)
  | Except.ok myTransientTrackBuilder =>
    let s1 := alg.setTransientTrackBuilder s myTransientTrackBuilder
    match getRecord iSetup.magneticField with
    | Except.error e => (Except.error e, s1, g)
    | Except.ok myMF =>
      let s2 := alg.setMagneticField s1 myMF
      let pv := thePV cfg shoot o iEvent.vertices g
      let taus := tauLoop alg cfg.JetMinPt_ pt iEvent iSetup pv.1 iEvent.tagInfos 0 s2 []
      let selectedDetIds := detIdLoop (alg.mySelectedDetId_ taus.2) 0 []
      (Except.ok ⟨taus.1, selectedDetIds⟩, taus.2, pv.2)

end Produce

/-! ## Reference descriptions of the two outputs -/

section Reference

variable {R S TTB MF Item C D : Type}

/-- The positions `k` of `items`, in increasing order, whose item has `pt > JetMinPt_`. -/
def acceptedKeys [LT R] [DecidableRel (fun a b : R => a < b)] (JetMinPt_ : R) (pt : Item → R)
    (items : List Item) : List Nat :=
  (List.range items.length).filter fun k =>
    match items[k]? with
    | some it => decide (pt it > JetMinPt_)
    | none => false

/-- The successive calls `buildCaloTau(iEvent, iSetup, Ref(collection, k), pv)` for the
positions `k` of `keys`, each call starting from the state the previous one left: the
candidates they return, and the final state. -/
def buildSeq (alg : CaloRecoTauAlgorithm S TTB MF Item R C D) (iEvent : Event Item R)
    (iSetup : EventSetup TTB MF) (pv : Vertex R) : List Nat → S → List C × S
  | [], s => ([], s)
  | k :: keys, s =>
    let r := alg.buildCaloTau s iEvent iSetup ⟨iEvent.tagInfos, k⟩ pv
    let rest := buildSeq alg iEvent iSetup pv keys r.2
    (r.1 :: rest.1, rest.2)

/-- The identifiers appended by the successive `buildCaloTau` calls for the positions of
`keys`: for each call, what `mySelectedDetId_` holds after the call beyond the length it had
before the call. -/
def addedSeq (alg : CaloRecoTauAlgorithm S TTB MF Item R C D) (iEvent : Event Item R)
    (iSetup : EventSetup TTB MF) (pv : Vertex R) : List Nat → S → List D
  | [], _ => []
  | k :: keys, s =>
    let r := alg.buildCaloTau s iEvent iSetup ⟨iEvent.tagInfos, k⟩ pv
    (alg.mySelectedDetId_ r.2).drop (alg.mySelectedDetId_ s).length ++
      addedSeq alg iEvent iSetup pv keys r.2

/-- An algorithm that records its calls: the candidate returned by `buildCaloTau` is the pair
of the reference and the vertex it was called with, the state is the list of identifiers
selected so far, and each call selects the key of its reference. -/
def recorder (TTB MF Item R : Type) :
    CaloRecoTauAlgorithm (List Nat) TTB MF Item R (Ref Item × Vertex R) Nat where
  setTransientTrackBuilder := fun s _ => s
  setMagneticField := fun s _ => s
  buildCaloTau := fun s _ _ ref pv => ((ref, pv), s ++ [ref.key])
  mySelectedDetId_ := fun s => s

/-- The accepted positions counted from `n`: the recursion the loop follows. -/
def acceptedFrom [LT R] [DecidableRel (fun a b : R => a < b)] (JetMinPt_ : R) (pt : Item → R) :
    Nat → List Item → List Nat
  | _, [] => []
  | n, it :: rest =>
    if pt it > JetMinPt_ then n :: acceptedFrom JetMinPt_ pt (n + 1) rest
    else acceptedFrom JetMinPt_ pt (n + 1) rest

end Reference

/-! ## Concrete events -/

/-- A random engine whose state counts the samples drawn and whose `n`-th sample is `n`. -/
def counterShoot : Nat → ℚ → ℚ → ℚ × Nat :=
  fun g _ _ => ((g : ℚ), g + 1)

/-- The smearing of Scenario B with the threshold of Scenario A. -/
def scenarioCfg : Config ℚ :=
  ⟨3 / 2000, 3 / 2000, 1 / 200, 1 / 2⟩

/-- An event setup in which both records can be obtained. -/
def allPresent : EventSetup Unit Unit :=
  ⟨some (), some ()⟩

/-- The input of Scenario A: no vertex, three items given by their transverse momentum. -/
def scenarioA : Event ℚ ℚ :=
  ⟨[], [1 / 5, 3 / 5, 1]⟩

/-- An event with no vertex and one item of transverse momentum 1. -/
def oneItem : Event ℚ ℚ :=
  ⟨[], [1]⟩

/-- An event with no vertex and no item. -/
def noItem : Event ℚ ℚ :=
  ⟨[], []⟩

/-- An externally supplied vertex. -/
def V1 : Vertex ℚ :=
  ⟨⟨1, 2, 3⟩, ⟨4, 1, 5, 1, 1, 6⟩, 7, 8, 9⟩

end CaloRecoTau

/-! ## `DDHCalLinearXY` -/

namespace HCalLinearXY

/-- A name `DDName(name, ns)`. -/
structure DDName where
  name : String
  ns : String
  deriving DecidableEq, Repr

/-- A translation `DDTranslation(x, y, z)`. -/
structure DDTranslation (R : Type) where
  x : R
  y : R
  z : R
  deriving DecidableEq, Repr

/-- The default-constructed rotation `DDRotation rot`. -/
inductive DDRotation where
  | unnamed
  deriving DecidableEq, Repr

/-- One call `cpv.position(child, mother, copy, tran, rot)`. -/
structure Positioned (R : Type) where
  child : DDName
  mother : DDName
  copy : Int
  tran : DDTranslation R
  rot : DDRotation
  deriving DecidableEq, Repr

/-- The members of `DDHCalLinearXY` set by `initialize`; `numberX` and `numberY` hold the
values of two `int`s; `centre0`, `centre1`, `centre2` are the entries `centre[0]`,
`centre[1]`, `centre[2]` of the vector `centre`. -/
structure DDHCalLinearXY (R : Type) where
  numberX : Int
  deltaX : R
  numberY : Int
  deltaY : R
  centre0 : R
  centre1 : R
  centre2 : R
  idNameSpace : String
  childName : List String

section Execute

variable {R : Type} [Add R] [Sub R] [Mul R] [Div R] [IntCast R] [OfNat R 2]

/-- The value `xoff` of line 57.  (`numberX - 1` is an `int` subtraction; it can overflow
only for the least `int`, a negative `numberX`, for which the loops make no placement and
`xoff` is not used.) -/
def xoff (self : DDHCalLinearXY R) : R :=
  self.centre0 - ((self.numberX - 1 : Int) : R) * self.deltaX / 2

/-- The value `yoff` of line 58, with the same remark on `numberY - 1`. -/
def yoff (self : DDHCalLinearXY R) : R :=
  self.centre1 - ((self.numberY - 1 : Int) : R) * self.deltaY / 2

/-- The translation `tran` of line 64. -/
def tran (self : DDHCalLinearXY R) (i j : Int) : DDTranslation R :=
  ⟨xoff self + (i : R) * self.deltaX, yoff self + (j : R) * self.deltaY, self.centre2⟩

/-- The value of an `int` after an operation whose mathematical result is `x`: the
representative of `x` modulo `2^32` between `-2^31` and `2^31 - 1`. -/
def wrapInt (x : Int) : Int :=
  (x + 2147483648) % 4294967296 - 2147483648

/-- The conversion of an `int` to `unsigned int`: the representative modulo `2^32` between 0
and `2^32 - 1`. -/
def toUnsigned (x : Int) : Nat :=
  (x % 4294967296).toNat

/-- The index `k` of lines 66-67 for the value `copy` of the counter on entry. -/
def nameIndex (self : DDHCalLinearXY R) (copy : Int) : Nat :=
  if self.childName.length = 1 then 0 else toUnsigned copy

/-- The body of the inner loop (lines 64-88) for the counters `i`, `j` and the value `copy`
on entry: the call of `cpv.position` it makes, if it makes one, with the incremented counter
as copy number.  (`child` is assigned on line 70 before every use on line 76, so its previous
value is never read.) -/
def body (DDSplit : String → String × String) (mother : DDName) (self : DDHCalLinearXY R)
    (i j copy : Int) : Option (Positioned R) :=
  match self.childName[nameIndex self copy]? with
  | some name =>
    if name ≠ " " ∧ name ≠ "Null" then
      some ⟨⟨(DDSplit name).1, (DDSplit name).2⟩, mother, wrapInt (copy + 1), tran self i j,
        DDRotation.unnamed⟩
    else none
  | none => none

/-- The inner loop `for (int j=0; j<numberY; j++)` from `j` on; returns the counter `copy` and
the compact view.  (`j < numberY` and `numberY` is an `int`, so `j++` does not overflow.) -/
def innerLoop (DDSplit : String → String × String) (mother : DDName) (self : DDHCalLinearXY R)
    (i j copy : Int) (cpv : List (Positioned R)) : Int × List (Positioned R) :=
  if j < self.numberY then
    match body DDSplit mother self i j copy with
    | some p => innerLoop DDSplit mother self i (j + 1) (wrapInt (copy + 1)) (cpv ++ [p])
    | none => innerLoop DDSplit mother self i (j + 1) (wrapInt (copy + 1)) cpv
  else (copy, cpv)
termination_by (self.numberY - j).toNat
decreasing_by all_goals omega

/-- The outer loop `for (int i=0; i<numberX; i++)` from `i` on.  (`i < numberX` and `numberX`
is an `int`, so `i++` does not overflow.) -/
def outerLoop (DDSplit : String → String × String) (mother : DDName) (self : DDHCalLinearXY R)
    (i copy : Int) (cpv : List (Positioned R)) : List (Positioned R) :=
  if i < self.numberX then
    let r := innerLoop DDSplit mother self i 0 copy cpv
    outerLoop DDSplit mother self (i + 1) r.1 r.2
  else cpv
termination_by (self.numberX - i).toNat
decreasing_by omega

/-- The function `DDHCalLinearXY::execute`: the compact view after the call, as the list of
the `position` calls made on it, `mother` being `parent().name()`. -/
def execute (DDSplit : String → String × String) (mother : DDName) (self : DDHCalLinearXY R)
    (cpv : List (Positioned R)) : List (Positioned R) :=
  outerLoop DDSplit mother self 0 0 cpv

/-- The calls `execute` is expected to make: the grid slots `(a, d)` with `a` below `numberX`
and `d` below `numberY` are visited row by row, the slot `(a, d)` with the counter `copy` at
`a * numberY + d` (as an `int`), and each contributes the call of the loop body, if any. -/
def placements (DDSplit : String → String × String) (mother : DDName) (self : DDHCalLinearXY R) :
    List (Positioned R) :=
  (List.range self.numberX.toNat).flatMap fun a : Nat =>
    (List.range self.numberY.toNat).filterMap fun d : Nat =>
      body DDSplit mother self (a : Int) (d : Int)
        (wrapInt ((a : Int) * self.numberY + (d : Int)))

end Execute

/-! ## Binary floating point -/

/-- A finite binary floating-point number with a significand of at most 53 bits, as `double`
has: the value `m * 2^e`, kept with `m` odd, or with `m = 0` and `e = 0`, so that two numbers
are equal exactly when their values are.  The exponent is not bounded: the operations below
agree with those of IEEE binary64 (round to nearest, ties to even) as long as no overflow and
no underflow occurs. -/
structure Bin53 where
  m : Int
  e : Int
  deriving DecidableEq, Repr

namespace Bin53

/-- The number of binary digits of `n`, by halving at most `fuel` times. -/
def bitLengthAux : Nat → Nat → Nat
  | 0, _ => 0
  | fuel + 1, n => if n = 0 then 0 else bitLengthAux fuel (n / 2) + 1

/-- The number of binary digits of `n`. -/
def bitLength (n : Nat) : Nat :=
  bitLengthAux n n

/-- The number of trailing zero binary digits of `n > 0`. -/
def trailingZeros (n : Nat) : Nat :=
  bitLength (Nat.gcd n (2 ^ bitLength n)) - 1

/-- The number `m * 2^e` in its kept form. -/
def norm (m e : Int) : Bin53 :=
  if m = 0 then ⟨0, 0⟩
  else ⟨m / (2 ^ trailingZeros m.natAbs : Nat), e + trailingZeros m.natAbs⟩

/-- The number nearest to `m * 2^e` with at most 53 significant bits, ties to the even
significand. -/
def round (m e : Int) : Bin53 :=
  if bitLength m.natAbs ≤ 53 then norm m e
  else
    let s := bitLength m.natAbs - 53
    let top := m.natAbs / 2 ^ s
    let low := m.natAbs % 2 ^ s
    let half := 2 ^ (s - 1)
    let up := if low > half ∨ (low = half ∧ top % 2 = 1) then top + 1 else top
    norm (m.sign * (up : Int)) (e + s)

/-- The rounded sum. -/
def add (a b : Bin53) : Bin53 :=
  round (a.m * (2 ^ (a.e - min a.e b.e).toNat : Nat) + b.m * (2 ^ (b.e - min a.e b.e).toNat : Nat))
    (min a.e b.e)

/-- The rounded difference. -/
def sub (a b : Bin53) : Bin53 :=
  round (a.m * (2 ^ (a.e - min a.e b.e).toNat : Nat) - b.m * (2 ^ (b.e - min a.e b.e).toNat : Nat))
    (min a.e b.e)

/-- The rounded product. -/
def mul (a b : Bin53) : Bin53 :=
  round (a.m * b.m) (a.e + b.e)

/-- The rounded quotient, from a quotient of at least 56 bits and a sticky bit for the
remainder.  (A zero divisor, for which IEEE gives an infinity or a NaN, is outside the
numbers kept here; `execute` divides by 2 only.) -/
def div (a b : Bin53) : Bin53 :=
  if b.m = 0 then ⟨0, 0⟩
  else
    let k := 55 + bitLength b.m.natAbs
    let q := a.m.natAbs * 2 ^ k / b.m.natAbs
    let r := a.m.natAbs * 2 ^ k % b.m.natAbs
    let sticky := if r = 0 then 0 else 1
    round (a.m.sign * b.m.sign * ((2 * q + sticky : Nat) : Int)) (a.e - b.e - (k : Int) - 1)

instance : Add Bin53 := ⟨add⟩

instance : Sub Bin53 := ⟨sub⟩

instance : Mul Bin53 := ⟨mul⟩

instance : Div Bin53 := ⟨div⟩

instance : IntCast Bin53 := ⟨fun n => round n 0⟩

instance (n : Nat) : OfNat Bin53 n := ⟨round n 0⟩

end Bin53

/-! ## Concrete geometries -/

/-- A name splitter that puts every name into the namespace `hcalalgo`. -/
def splitAll : String → String × String :=
  fun s => (s, "hcalalgo")

/-- The mother volume of the concrete geometries. -/
def HB : DDName :=
  ⟨"HB", "hcalalgo"⟩

/-- A 2 x 3 grid of copies of one child. -/
def grid23 : DDHCalLinearXY ℚ :=
  { numberX := 2, deltaX := 10, numberY := 3, deltaY := 4, centre0 := 1, centre1 := 2,
    centre2 := 7, idNameSpace := "hcalalgo", childName := ["A"] }

/-- A grid of 32768 x 65536 copies of one child: `2^31` slots. -/
def bigGrid : DDHCalLinearXY ℚ :=
  { numberX := 32768, deltaX := 10, numberY := 65536, deltaY := 4, centre0 := 0, centre1 := 0,
    centre2 := 0, idNameSpace := "hcalalgo", childName := ["A"] }

end HCalLinearXY

namespace CaloRecoTau

/-! ## Lemmas on the loops -/

section Lemmas

variable {R G S TTB MF Item C D : Type}

theorem detIdLoop_eq (ids : List D) (i : Nat) (out : List D) :
    detIdLoop ids i out = out ++ ids.drop i := by
  generalize hn : ids.length - i = n
  induction n generalizing i out with
  | zero =>
    rw [detIdLoop]
    have hle : ids.length ≤ i := by omega
    simp [Nat.not_lt.mpr hle, List.drop_eq_nil_of_le hle]
  | succ n ih =>
    rw [detIdLoop]
    have hlt : i < ids.length := by omega
    rw [dif_pos hlt, ih (i + 1) _ (by omega)]
    rw [List.append_assoc]
    congr 1
    simp [← List.drop_eq_getElem_cons hlt]

theorem detIdLoop_zero (ids : List D) : detIdLoop ids 0 [] = ids := by
  simp [detIdLoop_eq]

theorem acceptedFrom_eq [LT R] [DecidableRel (fun a b : R => a < b)] (JetMinPt_ : R)
    (pt : Item → R) (n : Nat) (items : List Item) :
    acceptedFrom JetMinPt_ pt n items = (acceptedKeys JetMinPt_ pt items).map (· + n) := by
  induction items generalizing n with
  | nil => simp [acceptedFrom, acceptedKeys]
  | cons it rest ih =>
    have hshift : ((List.range rest.length).map Nat.succ).filter (fun k =>
          match (it :: rest)[k]? with
          | some it => decide (pt it > JetMinPt_)
          | none => false)
        = ((List.range rest.length).filter (fun k =>
          match rest[k]? with
          | some it => decide (pt it > JetMinPt_)
          | none => false)).map Nat.succ := by
      rw [List.filter_map]
      congr 1
      apply List.filter_congr
      intro k _
      simp [Function.comp]
    simp only [acceptedFrom, acceptedKeys, List.length_cons, List.range_succ_eq_map,
      List.filter_cons, hshift]
    by_cases h : pt it > JetMinPt_
    · simp [h, ih (n + 1), acceptedKeys, Nat.add_comm, Nat.add_left_comm]
    · simp [h, ih (n + 1), acceptedKeys, Nat.add_comm, Nat.add_left_comm]

theorem tauLoop_eq [LT R] [DecidableRel (fun a b : R => a < b)]
    (alg : CaloRecoTauAlgorithm S TTB MF Item R C D) (JetMinPt_ : R) (pt : Item → R)
    (iEvent : Event Item R) (iSetup : EventSetup TTB MF) (pv : Vertex R)
    (rest : List Item) (iinfo : Nat) (s : S) (acc : List C) :
    tauLoop alg JetMinPt_ pt iEvent iSetup pv rest iinfo s acc =
      (acc ++ (buildSeq alg iEvent iSetup pv (acceptedFrom JetMinPt_ pt iinfo rest) s).1,
        (buildSeq alg iEvent iSetup pv (acceptedFrom JetMinPt_ pt iinfo rest) s).2) := by
  induction rest generalizing iinfo s acc with
  | nil => simp [tauLoop, acceptedFrom, buildSeq]
  | cons it rest ih =>
    by_cases h : pt it > JetMinPt_
    · simp [tauLoop, acceptedFrom, buildSeq, h, ih]
    · simp [tauLoop, acceptedFrom, buildSeq, h, ih]

theorem buildSeq_length (alg : CaloRecoTauAlgorithm S TTB MF Item R C D) (iEvent : Event Item R)
    (iSetup : EventSetup TTB MF) (pv : Vertex R) (keys : List Nat) (s : S) :
    (buildSeq alg iEvent iSetup pv keys s).1.length = keys.length := by
  induction keys generalizing s with
  | nil => simp [buildSeq]
  | cons k keys ih => simp [buildSeq, ih]

theorem buildSeq_recorder (iEvent : Event Item R) (iSetup : EventSetup TTB MF) (pv : Vertex R)
    (keys : List Nat) (s : List Nat) :
    buildSeq (recorder TTB MF Item R) iEvent iSetup pv keys s =
      (keys.map (fun k => (Ref.mk iEvent.tagInfos k, pv)), s ++ keys) := by
  induction keys generalizing s with
  | nil => simp [buildSeq]
  | cons k keys ih =>
    simp only [buildSeq]
    rw [ih]
    simp [recorder]

theorem mem_acceptedKeys [LT R] [DecidableRel (fun a b : R => a < b)] (JetMinPt_ : R)
    (pt : Item → R) (items : List Item) (k : Nat) :
    k ∈ acceptedKeys JetMinPt_ pt items ↔ ∃ it, items[k]? = some it ∧ pt it > JetMinPt_ := by
  unfold acceptedKeys
  rw [List.mem_filter, List.mem_range]
  constructor
  · rintro ⟨_, h⟩
    cases hk : items[k]? with
    | none => simp [hk] at h
    | some it => exact ⟨it, rfl, by simpa [hk] using h⟩
  · rintro ⟨it, hk, h⟩
    refine ⟨?_, by simpa [hk] using h⟩
    exact (List.getElem?_eq_some.mp hk).1

theorem acceptedKeys_pairwise [LT R] [DecidableRel (fun a b : R => a < b)] (JetMinPt_ : R)
    (pt : Item → R) (items : List Item) :
    (acceptedKeys JetMinPt_ pt items).Pairwise (fun a b => a < b) :=
  List.Pairwise.filter _ (List.pairwise_lt_range _)

/-- The whole of `produce` when both records can be obtained. -/
theorem produce_ok [Zero R] [One R] [Mul R] [LT R] [DecidableRel (fun a b : R => a < b)]
    (alg : CaloRecoTauAlgorithm S TTB MF Item R C D) (cfg : Config R) (pt : Item → R)
    (shoot : G → R → R → R × G) (o : ArgOrder) (iEvent : Event Item R)
    (ttb : TTB) (mf : MF) (s : S) (g : G) :
    produce alg cfg pt shoot o iEvent ⟨some ttb, some mf⟩ s g =
      (Except.ok
        ⟨(buildSeq alg iEvent ⟨some ttb, some mf⟩ (thePV cfg shoot o iEvent.vertices g).1
            (acceptedKeys cfg.JetMinPt_ pt iEvent.tagInfos)
            (alg.setMagneticField (alg.setTransientTrackBuilder s ttb) mf)).1,
          alg.mySelectedDetId_
            (buildSeq alg iEvent ⟨some ttb, some mf⟩ (thePV cfg shoot o iEvent.vertices g).1
              (acceptedKeys cfg.JetMinPt_ pt iEvent.tagInfos)
              (alg.setMagneticField (alg.setTransientTrackBuilder s ttb) mf)).2⟩,
        (buildSeq alg iEvent ⟨some ttb, some mf⟩ (thePV cfg shoot o iEvent.vertices g).1
          (acceptedKeys cfg.JetMinPt_ pt iEvent.tagInfos)
          (alg.setMagneticField (alg.setTransientTrackBuilder s ttb) mf)).2,
        (thePV cfg shoot o iEvent.vertices g).2) := by
  simp [produce, getRecord, tauLoop_eq, detIdLoop_zero, acceptedFrom_eq]

/-- The whole of `produce` for the recording algorithm. -/
theorem produce_recorder [Zero R] [One R] [Mul R] [LT R] [DecidableRel (fun a b : R => a < b)]
    (cfg : Config R) (pt : Item → R) (shoot : G → R → R → R × G) (o : ArgOrder)
    (iEvent : Event Item R) (ttb : TTB) (mf : MF) (calls : List Nat) (g : G) :
    produce (recorder TTB MF Item R) cfg pt shoot o iEvent ⟨some ttb, some mf⟩ calls g =
      (Except.ok
        ⟨(acceptedKeys cfg.JetMinPt_ pt iEvent.tagInfos).map
            (fun k => (Ref.mk iEvent.tagInfos k, (thePV cfg shoot o iEvent.vertices g).1)),
          calls ++ acceptedKeys cfg.JetMinPt_ pt iEvent.tagInfos⟩,
        calls ++ acceptedKeys cfg.JetMinPt_ pt iEvent.tagInfos,
        (thePV cfg shoot o iEvent.vertices g).2) := by
  rw [produce_ok, buildSeq_recorder]
  rfl

/-- For an algorithm whose `buildCaloTau` only appends to `mySelectedDetId_`, the list held
after a sequence of calls is the list held before followed by what the calls appended. -/
theorem buildSeq_appends (alg : CaloRecoTauAlgorithm S TTB MF Item R C D)
    (happ : ∀ s iEvent iSetup ref pv, ∃ new,
      alg.mySelectedDetId_ (alg.buildCaloTau s iEvent iSetup ref pv).2 =
        alg.mySelectedDetId_ s ++ new)
    (iEvent : Event Item R) (iSetup : EventSetup TTB MF) (pv : Vertex R) (keys : List Nat)
    (s : S) :
    alg.mySelectedDetId_ (buildSeq alg iEvent iSetup pv keys s).2 =
      alg.mySelectedDetId_ s ++ addedSeq alg iEvent iSetup pv keys s := by
  induction keys generalizing s with
  | nil => simp [buildSeq, addedSeq]
  | cons k keys ih =>
    obtain ⟨new, hnew⟩ := happ s iEvent iSetup ⟨iEvent.tagInfos, k⟩ pv
    simp only [buildSeq, addedSeq]
    rw [ih, hnew, List.drop_left, List.append_assoc]

theorem acceptedKeys_eq_nil [LT R] [DecidableRel (fun a b : R => a < b)] (JetMinPt_ : R)
    (pt : Item → R) (items : List Item) (h : ∀ it ∈ items, ¬ pt it > JetMinPt_) :
    acceptedKeys JetMinPt_ pt items = [] := by
  rw [List.eq_nil_iff_forall_not_mem]
  intro k hk
  obtain ⟨it, hit, hpt⟩ := (mem_acceptedKeys JetMinPt_ pt items k).mp hk
  exact h it (List.getElem?_mem hit) hpt

end Lemmas

/-! ## Properties of `produce` -/

section Properties

variable {R G S TTB MF Item C D : Type}

/-- C1: when both records are obtained, the candidates put into the event are the results of
the successive `buildCaloTau` calls for the accepted positions, all with the same vertex
`thePV`; there is one candidate per accepted position; the accepted positions are listed in
increasing order and are exactly the original positions of the items with `pt > JetMinPt_`;
and the calls seen by a recording algorithm are, in order, the pairs of the reference to the
original position and that one vertex. -/
theorem produce_candidates [Zero R] [One R] [Mul R] [LT R] [DecidableRel (fun a b : R => a < b)]
    (alg : CaloRecoTauAlgorithm S TTB MF Item R C D) (cfg : Config R) (pt : Item → R)
    (shoot : G → R → R → R × G) (o : ArgOrder) (iEvent : Event Item R)
    (ttb : TTB) (mf : MF) (s : S) (calls : List Nat) (g : G) :
    (∃ p, (produce alg cfg pt shoot o iEvent ⟨some ttb, some mf⟩ s g).1 = Except.ok p ∧
      p.resultCaloTau =
        (buildSeq alg iEvent ⟨some ttb, some mf⟩ (thePV cfg shoot o iEvent.vertices g).1
          (acceptedKeys cfg.JetMinPt_ pt iEvent.tagInfos)
          (alg.setMagneticField (alg.setTransientTrackBuilder s ttb) mf)).1 ∧
      p.resultCaloTau.length = (acceptedKeys cfg.JetMinPt_ pt iEvent.tagInfos).length) ∧
    (acceptedKeys cfg.JetMinPt_ pt iEvent.tagInfos).Pairwise (fun a b => a < b) ∧
    (∀ k, k ∈ acceptedKeys cfg.JetMinPt_ pt iEvent.tagInfos ↔
      ∃ it, iEvent.tagInfos[k]? = some it ∧ pt it > cfg.JetMinPt_) ∧
    (∃ p, (produce (recorder TTB MF Item R) cfg pt shoot o iEvent ⟨some ttb, some mf⟩
        calls g).1 = Except.ok p ∧
      p.resultCaloTau = (acceptedKeys cfg.JetMinPt_ pt iEvent.tagInfos).map
        (fun k => (Ref.mk iEvent.tagInfos k, (thePV cfg shoot o iEvent.vertices g).1))) := by
  refine ⟨⟨_, by rw [produce_ok], rfl, ?_⟩, acceptedKeys_pairwise _ _ _,
    mem_acceptedKeys _ _ _, ⟨_, by rw [produce_recorder], rfl⟩⟩
  exact buildSeq_length _ _ _ _ _ _

/-- Scenario A: momenta 0.2, 0.6, 1.0 and threshold 0.5 give two candidates, built from the
second and the third item (positions 1 and 2), in that order. -/
theorem scenarioA_candidates :
    ∃ pv, (produce (recorder Unit Unit ℚ ℚ) scenarioCfg id counterShoot ArgOrder.xyz scenarioA
      allPresent [] 0).1 =
      Except.ok ⟨[(⟨scenarioA.tagInfos, 1⟩, pv), (⟨scenarioA.tagInfos, 2⟩, pv)], [1, 2]⟩ := by
  refine ⟨(thePV scenarioCfg counterShoot ArgOrder.xyz [] 0).1, ?_⟩
  simp [allPresent, produce_recorder, acceptedKeys, scenarioA, scenarioCfg, List.range_succ,
    List.filter]
  norm_num

/-- C2: at every position of the input a call of `buildCaloTau` is made for the item (seen by
the recording algorithm as a candidate whose reference has that key) if and only if the item
has `pt > JetMinPt_`; an item whose `pt` equals `JetMinPt_` gets no call. -/
theorem accepted_iff_pt_gt [Zero R] [One R] [Mul R] [Preorder R]
    [DecidableRel (fun a b : R => a < b)] (cfg : Config R) (pt : Item → R)
    (shoot : G → R → R → R × G) (o : ArgOrder) (iEvent : Event Item R)
    (ttb : TTB) (mf : MF) (calls : List Nat) (g : G) (k : Nat) (it : Item)
    (h : iEvent.tagInfos[k]? = some it) :
    ∃ p, (produce (recorder TTB MF Item R) cfg pt shoot o iEvent ⟨some ttb, some mf⟩
        calls g).1 = Except.ok p ∧
      ((∃ c ∈ p.resultCaloTau, c.1.key = k) ↔ pt it > cfg.JetMinPt_) ∧
      (pt it = cfg.JetMinPt_ → ¬ ∃ c ∈ p.resultCaloTau, c.1.key = k) := by
  have key : (∃ c ∈ (acceptedKeys cfg.JetMinPt_ pt iEvent.tagInfos).map
        (fun k => (Ref.mk iEvent.tagInfos k, (thePV cfg shoot o iEvent.vertices g).1)),
        c.1.key = k) ↔ pt it > cfg.JetMinPt_ := by
    simp only [List.mem_map, mem_acceptedKeys]
    constructor
    · rintro ⟨c, ⟨k', ⟨it', hk', hpt⟩, rfl⟩, hc⟩
      simp only at hc
      subst hc
      rw [h] at hk'
      cases hk'
      exact hpt
    · intro hpt
      exact ⟨_, ⟨k, ⟨it, h, hpt⟩, rfl⟩, rfl⟩
  refine ⟨_, by rw [produce_recorder], key, ?_⟩
  · intro heq hex
    have hlt : pt it > cfg.JetMinPt_ := key.mp hex
    rw [heq] at hlt
    exact lt_irrefl _ hlt

/-- The acceptance criterion on the second item of Scenario A (momentum 0.6, threshold 0.5). -/
theorem accepted_iff_pt_gt_witness :
    scenarioA.tagInfos[1]? = some (3 / 5) ∧
    ∃ p, (produce (recorder Unit Unit ℚ ℚ) scenarioCfg id counterShoot ArgOrder.xyz scenarioA
        ⟨some (), some ()⟩ [] 0).1 = Except.ok p ∧
      ((∃ c ∈ p.resultCaloTau, c.1.key = 1) ↔ id (3 / 5 : ℚ) > scenarioCfg.JetMinPt_) ∧
      (id (3 / 5 : ℚ) = scenarioCfg.JetMinPt_ → ¬ ∃ c ∈ p.resultCaloTau, c.1.key = 1) :=
  ⟨by simp [scenarioA],
    accepted_iff_pt_gt scenarioCfg id counterShoot ArgOrder.xyz scenarioA () () [] 0 1 (3 / 5)
      (by simp [scenarioA])⟩

/-- C3: for a non-empty vertex collection `thePV` is the first vertex, unchanged, whatever the
later vertices, the smearing configuration, the random engine and the evaluation order are,
and the engine is left in the state it was in: no sample is drawn.  In `produce` every call
of `buildCaloTau` receives that first vertex and the engine state is unchanged. -/
theorem thePV_first [Zero R] [One R] [Mul R] [LT R] [DecidableRel (fun a b : R => a < b)]
    (alg : CaloRecoTauAlgorithm S TTB MF Item R C D) (cfg : Config R) (pt : Item → R)
    (shoot : G → R → R → R × G) (o : ArgOrder) (v : Vertex R) (rest : List (Vertex R))
    (items : List Item) (iSetup : EventSetup TTB MF) (ttb : TTB) (mf : MF) (s : S)
    (calls : List Nat) (g : G) :
    thePV cfg shoot o (v :: rest) g = (v, g) ∧
    (produce alg cfg pt shoot o ⟨v :: rest, items⟩ iSetup s g).2.2 = g ∧
    ∃ p, (produce (recorder TTB MF Item R) cfg pt shoot o ⟨v :: rest, items⟩
        ⟨some ttb, some mf⟩ calls g).1 = Except.ok p ∧
      ∀ c ∈ p.resultCaloTau, c.2 = v := by
  refine ⟨rfl, ?_, _, by rw [produce_recorder], ?_⟩
  · obtain ⟨t, m⟩ := iSetup
    cases t <;> cases m <;> simp [produce, getRecord, thePV]
  · simp [thePV]

/-- Scenario C: with external vertices `[V1, V2]` the vertex used is `V1`. -/
theorem scenarioC_first (V2 : Vertex ℚ) :
    (thePV scenarioCfg counterShoot ArgOrder.xyz [V1, V2] 0).1 = V1 :=
  rfl

/-- C4 (as stated, refuted): with the arguments of the `SimPVPoint` constructor evaluated right
to left, and the engine returning 0, 1, 2 as its first three samples, the position is
`(2, 1, 0)`: it is not the triple of the samples in the order in which they were drawn. -/
theorem SimPVPoint_order_counterexample :
    (thePV scenarioCfg counterShoot ArgOrder.zyx [] 0).1.position = ⟨2, 1, 0⟩ ∧
    (thePV scenarioCfg counterShoot ArgOrder.zyx [] 0).1.position ≠
      ⟨(counterShoot 0 0 scenarioCfg.smearedPVsigmaX_).1,
        (counterShoot 1 0 scenarioCfg.smearedPVsigmaY_).1,
        (counterShoot 2 0 scenarioCfg.smearedPVsigmaZ_).1⟩ := by
  constructor
  · simp [thePV, SimPVPoint, counterShoot]
  · simp [thePV, SimPVPoint, counterShoot]

/-- C4 (amended): for an empty vertex collection, whatever the smearing values, the samples
and the evaluation order, the covariance of `thePV` has the entries `sigmaX*sigmaX`,
`sigmaY*sigmaY`, `sigmaZ*sigmaZ` on its diagonal and zero in its six off-diagonal places;
`chi2`, `ndof` and `size` are 1; the coordinates x, y, z are samples shot with mean 0 and
`sigmaX`, `sigmaY`, `sigmaZ` respectively; when the arguments are evaluated left to right
they are the first, second and third sample drawn, and when they are evaluated right to left
they are the third, second and first. -/
theorem thePV_synthesized [Zero R] [One R] [Mul R] (cfg : Config R)
    (shoot : G → R → R → R × G) (o : ArgOrder) (g : G) :
    ((thePV cfg shoot o [] g).1.error.get 0 0 = cfg.smearedPVsigmaX_ * cfg.smearedPVsigmaX_ ∧
      (thePV cfg shoot o [] g).1.error.get 1 1 = cfg.smearedPVsigmaY_ * cfg.smearedPVsigmaY_ ∧
      (thePV cfg shoot o [] g).1.error.get 2 2 = cfg.smearedPVsigmaZ_ * cfg.smearedPVsigmaZ_) ∧
    ((thePV cfg shoot o [] g).1.error.get 0 1 = 0 ∧
      (thePV cfg shoot o [] g).1.error.get 1 0 = 0 ∧
      (thePV cfg shoot o [] g).1.error.get 0 2 = 0 ∧
      (thePV cfg shoot o [] g).1.error.get 2 0 = 0 ∧
      (thePV cfg shoot o [] g).1.error.get 1 2 = 0 ∧
      (thePV cfg shoot o [] g).1.error.get 2 1 = 0) ∧
    ((thePV cfg shoot o [] g).1.chi2 = 1 ∧
      (thePV cfg shoot o [] g).1.ndof = 1 ∧
      (thePV cfg shoot o [] g).1.size = 1) ∧
    (∃ gx gy gz, (thePV cfg shoot o [] g).1.position =
      ⟨(shoot gx 0 cfg.smearedPVsigmaX_).1, (shoot gy 0 cfg.smearedPVsigmaY_).1,
        (shoot gz 0 cfg.smearedPVsigmaZ_).1⟩) ∧
    (thePV cfg shoot ArgOrder.xyz [] g).1.position =
      ⟨(shoot g 0 cfg.smearedPVsigmaX_).1,
        (shoot (shoot g 0 cfg.smearedPVsigmaX_).2 0 cfg.smearedPVsigmaY_).1,
        (shoot (shoot (shoot g 0 cfg.smearedPVsigmaX_).2 0 cfg.smearedPVsigmaY_).2 0
          cfg.smearedPVsigmaZ_).1⟩ ∧
    (thePV cfg shoot ArgOrder.zyx [] g).1.position =
      ⟨(shoot (shoot (shoot g 0 cfg.smearedPVsigmaZ_).2 0 cfg.smearedPVsigmaY_).2 0
          cfg.smearedPVsigmaX_).1,
        (shoot (shoot g 0 cfg.smearedPVsigmaZ_).2 0 cfg.smearedPVsigmaY_).1,
        (shoot g 0 cfg.smearedPVsigmaZ_).1⟩ := by
  refine ⟨⟨rfl, rfl, rfl⟩, ⟨rfl, rfl, rfl, rfl, rfl, rfl⟩, ⟨rfl, rfl, rfl⟩, ?_, rfl, rfl⟩
  cases o <;> exact ⟨_, _, _, rfl⟩

/-- Scenario B: with no external vertex and smearing (0.0015, 0.0015, 0.005) the covariance is
the diagonal matrix of the three squares. -/
theorem scenarioB_covariance (o : ArgOrder) :
    (thePV scenarioCfg counterShoot o [] 0).1.error =
      ⟨(3 / 2000) * (3 / 2000), 0, (3 / 2000) * (3 / 2000), 0, 0, (1 / 200) * (1 / 200)⟩ :=
  rfl

/-- C5 (as stated, refuted): after an event with one accepted item the recording algorithm
holds the identifier 0, and the following event, whose input sequence is empty, puts that
identifier into its second collection, which is therefore not empty. -/
theorem stale_ids_counterexample :
    (produce (recorder Unit Unit ℚ ℚ) scenarioCfg id counterShoot ArgOrder.xyz oneItem
      allPresent [] 0).2 = ([0], 3) ∧
    (produce (recorder Unit Unit ℚ ℚ) scenarioCfg id counterShoot ArgOrder.xyz noItem
      allPresent [0] 3).1 = Except.ok ⟨[], [0]⟩ := by
  constructor
  · simp [allPresent, produce_recorder, acceptedKeys, oneItem, scenarioCfg, List.range_succ,
      List.filter, thePV, SimPVPoint, counterShoot]
    norm_num
  · simp [allPresent, produce_recorder, acceptedKeys, noItem]

/-- C5 (amended): when no item of the input has `pt > JetMinPt_` (in particular when the input
is empty) and both records are obtained, `produce` raises no error, the candidate collection
is empty, no call of `buildCaloTau` is made, and the second collection is the identifier list
the algorithm holds when the event starts (after the two setters). -/
theorem produce_no_accepted [Zero R] [One R] [Mul R] [LT R] [DecidableRel (fun a b : R => a < b)]
    (alg : CaloRecoTauAlgorithm S TTB MF Item R C D) (cfg : Config R) (pt : Item → R)
    (shoot : G → R → R → R × G) (o : ArgOrder) (iEvent : Event Item R)
    (ttb : TTB) (mf : MF) (s : S) (g : G)
    (h : ∀ it ∈ iEvent.tagInfos, ¬ pt it > cfg.JetMinPt_) :
    (produce alg cfg pt shoot o iEvent ⟨some ttb, some mf⟩ s g).1 =
      Except.ok ⟨[], alg.mySelectedDetId_
        (alg.setMagneticField (alg.setTransientTrackBuilder s ttb) mf)⟩ ∧
    (produce alg cfg pt shoot o iEvent ⟨some ttb, some mf⟩ s g).2.1 =
      alg.setMagneticField (alg.setTransientTrackBuilder s ttb) mf := by
  rw [produce_ok, acceptedKeys_eq_nil _ _ _ h]
  exact ⟨rfl, rfl⟩

/-- An event with an empty input, for an algorithm that holds no identifier: two empty
collections. -/
theorem produce_no_accepted_witness :
    (∀ it ∈ noItem.tagInfos, ¬ id it > scenarioCfg.JetMinPt_) ∧
    (produce (recorder Unit Unit ℚ ℚ) scenarioCfg id counterShoot ArgOrder.xyz noItem
      ⟨some (), some ()⟩ [] 0).1 = Except.ok ⟨[], []⟩ :=
  ⟨by simp [noItem],
    (produce_no_accepted (recorder Unit Unit ℚ ℚ) scenarioCfg id counterShoot ArgOrder.xyz
      noItem () () [] 0 (by simp [noItem])).1⟩

/-- C6: when both records are obtained, the second collection put into the event is, element
for element, the identifier list `mySelectedDetId_` of the algorithm in the state in which
`produce` leaves it, and that state is the one reached after the last `buildCaloTau` call. -/
theorem selectedDetIds_eq [Zero R] [One R] [Mul R] [LT R] [DecidableRel (fun a b : R => a < b)]
    (alg : CaloRecoTauAlgorithm S TTB MF Item R C D) (cfg : Config R) (pt : Item → R)
    (shoot : G → R → R → R × G) (o : ArgOrder) (iEvent : Event Item R)
    (ttb : TTB) (mf : MF) (s : S) (g : G) :
    ∃ p, (produce alg cfg pt shoot o iEvent ⟨some ttb, some mf⟩ s g).1 = Except.ok p ∧
      p.selectedDetIds =
        alg.mySelectedDetId_ (produce alg cfg pt shoot o iEvent ⟨some ttb, some mf⟩ s g).2.1 ∧
      (produce alg cfg pt shoot o iEvent ⟨some ttb, some mf⟩ s g).2.1 =
        (buildSeq alg iEvent ⟨some ttb, some mf⟩ (thePV cfg shoot o iEvent.vertices g).1
          (acceptedKeys cfg.JetMinPt_ pt iEvent.tagInfos)
          (alg.setMagneticField (alg.setTransientTrackBuilder s ttb) mf)).2 := by
  rw [produce_ok]
  exact ⟨_, rfl, rfl, rfl⟩

/-- C7 (as stated, refuted): after the event of Scenario A the recording algorithm still holds
the identifiers 1 and 2, and the following event, whose only call selects the identifier 0,
puts 1, 2, 0 into its second collection. -/
theorem accumulator_kept_counterexample :
    (produce (recorder Unit Unit ℚ ℚ) scenarioCfg id counterShoot ArgOrder.xyz scenarioA
      allPresent [] 0).2 = ([1, 2], 3) ∧
    (produce (recorder Unit Unit ℚ ℚ) scenarioCfg id counterShoot ArgOrder.xyz oneItem
      allPresent [1, 2] 3).1.map Products.selectedDetIds = Except.ok [1, 2, 0] := by
  constructor
  · simp [allPresent, produce_recorder, acceptedKeys, scenarioA, scenarioCfg, List.range_succ,
      List.filter, thePV, SimPVPoint, counterShoot]
    norm_num
  · simp [allPresent, produce_recorder, acceptedKeys, oneItem, scenarioCfg, List.range_succ,
      List.filter, Except.map]
    norm_num

/-- C7 (amended): copying the identifiers does not change the algorithm: when `produce`
returns, the algorithm holds exactly the identifier list just put into the event.  Of two
consecutive events the second starts from the state the first left, so its second collection
is what its own setters and `buildCaloTau` calls make of that state.  For an algorithm whose
setters leave the identifier list unchanged and whose `buildCaloTau` calls only append to it
(the recording algorithm is one), the second collection of the second event is the whole
second collection of the first event followed by the identifiers appended by the calls of the
second event. -/
theorem accumulator_kept [Zero R] [One R] [Mul R] [LT R] [DecidableRel (fun a b : R => a < b)]
    (alg : CaloRecoTauAlgorithm S TTB MF Item R C D) (cfg : Config R) (pt : Item → R)
    (shoot : G → R → R → R × G) (o : ArgOrder) (ev1 ev2 : Event Item R)
    (ttb : TTB) (mf : MF) (s : S) (calls : List Nat) (g : G) :
    (∃ p1 p2,
      (produce alg cfg pt shoot o ev1 ⟨some ttb, some mf⟩ s g).1 = Except.ok p1 ∧
      (produce alg cfg pt shoot o ev2 ⟨some ttb, some mf⟩
        (produce alg cfg pt shoot o ev1 ⟨some ttb, some mf⟩ s g).2.1
        (produce alg cfg pt shoot o ev1 ⟨some ttb, some mf⟩ s g).2.2).1 = Except.ok p2 ∧
      alg.mySelectedDetId_ (produce alg cfg pt shoot o ev1 ⟨some ttb, some mf⟩ s g).2.1 =
        p1.selectedDetIds ∧
      p2.selectedDetIds = alg.mySelectedDetId_
        (buildSeq alg ev2 ⟨some ttb, some mf⟩
          (thePV cfg shoot o ev2.vertices
            (produce alg cfg pt shoot o ev1 ⟨some ttb, some mf⟩ s g).2.2).1
          (acceptedKeys cfg.JetMinPt_ pt ev2.tagInfos)
          (alg.setMagneticField (alg.setTransientTrackBuilder
            (produce alg cfg pt shoot o ev1 ⟨some ttb, some mf⟩ s g).2.1 ttb) mf)).2) ∧
    ((∀ s t, alg.mySelectedDetId_ (alg.setTransientTrackBuilder s t) = alg.mySelectedDetId_ s) →
      (∀ s m, alg.mySelectedDetId_ (alg.setMagneticField s m) = alg.mySelectedDetId_ s) →
      (∀ s iEvent iSetup ref pv, ∃ new,
        alg.mySelectedDetId_ (alg.buildCaloTau s iEvent iSetup ref pv).2 =
          alg.mySelectedDetId_ s ++ new) →
      ∃ p1 p2,
        (produce alg cfg pt shoot o ev1 ⟨some ttb, some mf⟩ s g).1 = Except.ok p1 ∧
        (produce alg cfg pt shoot o ev2 ⟨some ttb, some mf⟩
          (produce alg cfg pt shoot o ev1 ⟨some ttb, some mf⟩ s g).2.1
          (produce alg cfg pt shoot o ev1 ⟨some ttb, some mf⟩ s g).2.2).1 = Except.ok p2 ∧
        p2.selectedDetIds = p1.selectedDetIds ++
          addedSeq alg ev2 ⟨some ttb, some mf⟩
            (thePV cfg shoot o ev2.vertices
              (produce alg cfg pt shoot o ev1 ⟨some ttb, some mf⟩ s g).2.2).1
            (acceptedKeys cfg.JetMinPt_ pt ev2.tagInfos)
            (alg.setMagneticField (alg.setTransientTrackBuilder
              (produce alg cfg pt shoot o ev1 ⟨some ttb, some mf⟩ s g).2.1 ttb) mf)) ∧
    (∃ p1 p2,
      (produce (recorder TTB MF Item R) cfg pt shoot o ev1 ⟨some ttb, some mf⟩ calls g).1 =
        Except.ok p1 ∧
      (produce (recorder TTB MF Item R) cfg pt shoot o ev2 ⟨some ttb, some mf⟩
        (produce (recorder TTB MF Item R) cfg pt shoot o ev1 ⟨some ttb, some mf⟩ calls g).2.1
        (produce (recorder TTB MF Item R) cfg pt shoot o ev1 ⟨some ttb, some mf⟩
          calls g).2.2).1 = Except.ok p2 ∧
      p2.selectedDetIds = p1.selectedDetIds ++ acceptedKeys cfg.JetMinPt_ pt ev2.tagInfos) := by
  refine ⟨?_, ?_, ?_⟩
  · simp only [produce_ok]
    exact ⟨_, _, rfl, rfl, rfl, rfl⟩
  · intro hset1 hset2 happ
    simp only [produce_ok]
    refine ⟨_, _, rfl, rfl, ?_⟩
    simp only []
    rw [buildSeq_appends alg happ, hset2, hset1]
  · simp only [produce_recorder]
    exact ⟨_, _, rfl, rfl, rfl⟩

/-- Scenario A followed by an event with one accepted item, for the recording algorithm,
whose setters keep the identifier list and whose calls append their key. -/
theorem accumulator_kept_witness :
    ∃ p1 p2,
      (produce (recorder Unit Unit ℚ ℚ) scenarioCfg id counterShoot ArgOrder.xyz scenarioA
        ⟨some (), some ()⟩ [] 0).1 = Except.ok p1 ∧
      (produce (recorder Unit Unit ℚ ℚ) scenarioCfg id counterShoot ArgOrder.xyz oneItem
        ⟨some (), some ()⟩
        (produce (recorder Unit Unit ℚ ℚ) scenarioCfg id counterShoot ArgOrder.xyz scenarioA
          ⟨some (), some ()⟩ [] 0).2.1
        (produce (recorder Unit Unit ℚ ℚ) scenarioCfg id counterShoot ArgOrder.xyz scenarioA
          ⟨some (), some ()⟩ [] 0).2.2).1 = Except.ok p2 ∧
      p2.selectedDetIds = p1.selectedDetIds ++
        addedSeq (recorder Unit Unit ℚ ℚ) oneItem ⟨some (), some ()⟩
          (thePV scenarioCfg counterShoot ArgOrder.xyz oneItem.vertices
            (produce (recorder Unit Unit ℚ ℚ) scenarioCfg id counterShoot ArgOrder.xyz scenarioA
              ⟨some (), some ()⟩ [] 0).2.2).1
          (acceptedKeys scenarioCfg.JetMinPt_ id oneItem.tagInfos)
          ((recorder Unit Unit ℚ ℚ).setMagneticField
            ((recorder Unit Unit ℚ ℚ).setTransientTrackBuilder
              (produce (recorder Unit Unit ℚ ℚ) scenarioCfg id counterShoot ArgOrder.xyz
                scenarioA ⟨some (), some ()⟩ [] 0).2.1 ()) ()) :=
  (accumulator_kept (recorder Unit Unit ℚ ℚ) scenarioCfg id counterShoot ArgOrder.xyz scenarioA
    oneItem () () [] [] 0).2.1 (fun _ _ => rfl) (fun _ _ => rfl)
    (fun _ _ _ ref _ => ⟨[ref.key], rfl⟩)

/-- C8: when the track-transformation builder or the magnetic field cannot be obtained,
`produce` ends with `MissingDependency`: nothing is put into the event, no sample is drawn,
and the algorithm has at most been given the builder (no `buildCaloTau` call: the recording
algorithm records none).  When both are obtained `produce` puts its two collections,
whatever the inputs and the vertex collection are. -/
theorem produce_missing_dependency [Zero R] [One R] [Mul R] [LT R]
    [DecidableRel (fun a b : R => a < b)]
    (alg : CaloRecoTauAlgorithm S TTB MF Item R C D) (cfg : Config R) (pt : Item → R)
    (shoot : G → R → R → R × G) (o : ArgOrder) (iEvent : Event Item R)
    (iSetup : EventSetup TTB MF) (s : S) (calls : List Nat) (g : G) :
    ((iSetup.transientTrackBuilder = none ∨ iSetup.magneticField = none) →
      (produce alg cfg pt shoot o iEvent iSetup s g).1 =
        Except.error Failure.MissingDependency ∧
      (produce alg cfg pt shoot o iEvent iSetup s g).2.2 = g ∧
      ((produce alg cfg pt shoot o iEvent iSetup s g).2.1 = s ∨
        ∃ t, iSetup.transientTrackBuilder = some t ∧
          (produce alg cfg pt shoot o iEvent iSetup s g).2.1 =
            alg.setTransientTrackBuilder s t) ∧
      (produce (recorder TTB MF Item R) cfg pt shoot o iEvent iSetup calls g).2.1 = calls) ∧
    ((∃ t m, iSetup.transientTrackBuilder = some t ∧ iSetup.magneticField = some m) →
      ∃ p, (produce alg cfg pt shoot o iEvent iSetup s g).1 = Except.ok p) := by
  obtain ⟨t, m⟩ := iSetup
  constructor
  · intro h
    cases t with
    | none => simp [produce, getRecord]
    | some t =>
      cases m with
      | none => simp [produce, getRecord, recorder]
      | some m => simp at h
  · rintro ⟨t', m', ht, hm⟩
    simp only at ht hm
    subst ht hm
    rw [produce_ok]
    exact ⟨_, rfl⟩

/-- Scenario A without the magnetic field fails; the empty event with both records does
not. -/
theorem produce_missing_dependency_witness :
    (produce (recorder Unit Unit ℚ ℚ) scenarioCfg id counterShoot ArgOrder.xyz scenarioA
      ⟨some (), none⟩ [] 0).1 = Except.error Failure.MissingDependency ∧
    ∃ p, (produce (recorder Unit Unit ℚ ℚ) scenarioCfg id counterShoot ArgOrder.xyz noItem
      allPresent [] 0).1 = Except.ok p :=
  ⟨((produce_missing_dependency (recorder Unit Unit ℚ ℚ) scenarioCfg id counterShoot
      ArgOrder.xyz scenarioA ⟨some (), none⟩ [] [] 0).1 (Or.inr rfl)).1,
    (produce_missing_dependency (recorder Unit Unit ℚ ℚ) scenarioCfg id counterShoot
      ArgOrder.xyz noItem allPresent [] [] 0).2 ⟨(), (), rfl, rfl⟩⟩

end Properties

end CaloRecoTau


namespace HCalLinearXY

/-! ## Lemmas on the loops of `execute` -/

section Lemmas

variable {R : Type} [Add R] [Sub R] [Mul R] [Div R] [IntCast R] [OfNat R 2]

theorem wrapInt_wrapInt_add (a b : Int) : wrapInt (wrapInt a + b) = wrapInt (a + b) := by
  unfold wrapInt
  omega

theorem wrapInt_of_range (x : Int) (h0 : -2147483648 ≤ x) (h1 : x < 2147483648) :
    wrapInt x = x := by
  unfold wrapInt
  omega

theorem wrapInt_lt (x : Int) : wrapInt x < 2147483648 := by
  unfold wrapInt
  omega

theorem toUnsigned_wrapInt (x : Int) : toUnsigned (wrapInt x) = (x % 4294967296).toNat := by
  unfold toUnsigned wrapInt
  congr 1
  omega

theorem innerLoop_eq (DDSplit : String → String × String) (mother : DDName)
    (self : DDHCalLinearXY R) (i : Int) (n : Nat) :
    ∀ (j copy : Int) (cpv : List (Positioned R)), (self.numberY - j).toNat = n →
      innerLoop DDSplit mother self i j (wrapInt copy) cpv =
        (wrapInt (copy + n), cpv ++ (List.range n).filterMap fun d : Nat =>
          body DDSplit mother self i (j + (d : Int)) (wrapInt (copy + (d : Int)))) := by
  induction n with
  | zero =>
    intro j copy cpv h
    rw [innerLoop]
    have hj : ¬ j < self.numberY := by omega
    simp [hj]
  | succ n ih =>
    intro j copy cpv h
    rw [innerLoop]
    have hj : j < self.numberY := by omega
    have hshift : (List.range n).filterMap (fun d : Nat =>
          body DDSplit mother self i (j + 1 + (d : Int)) (wrapInt (copy + 1 + (d : Int)))) =
        (List.range n).filterMap ((fun d : Nat =>
          body DDSplit mother self i (j + (d : Int)) (wrapInt (copy + (d : Int)))) ∘
            Nat.succ) := by
      apply List.filterMap_congr
      intro d _
      have e1 : j + 1 + (d : Int) = j + ((Nat.succ d : Nat) : Int) := by
        push_cast
        ring
      have e2 : copy + 1 + (d : Int) = copy + ((Nat.succ d : Nat) : Int) := by
        push_cast
        ring
      simp only [Function.comp]
      rw [e1, e2]
    have hlast : wrapInt (copy + 1 + (n : Int)) = wrapInt (copy + ((n + 1 : Nat) : Int)) := by
      congr 1
      push_cast
      ring
    rw [if_pos hj, wrapInt_wrapInt_add, List.range_succ_eq_map, List.filterMap_cons,
      List.filterMap_map]
    cases hb : body DDSplit mother self i j (wrapInt copy) with
    | none =>
      simp only [Nat.cast_zero, add_zero, hb]
      rw [ih (j + 1) (copy + 1) cpv (by omega), hshift, hlast]
    | some p =>
      simp only [Nat.cast_zero, add_zero, hb]
      rw [ih (j + 1) (copy + 1) (cpv ++ [p]) (by omega), hshift, hlast]
      simp only [List.append_assoc, List.singleton_append]

theorem outerLoop_eq (DDSplit : String → String × String) (mother : DDName)
    (self : DDHCalLinearXY R) (m : Nat) :
    ∀ (i copy : Int) (cpv : List (Positioned R)), (self.numberX - i).toNat = m →
      outerLoop DDSplit mother self i (wrapInt copy) cpv =
        cpv ++ (List.range m).flatMap fun a : Nat =>
          (List.range self.numberY.toNat).filterMap fun d : Nat =>
            body DDSplit mother self (i + (a : Int)) (d : Int)
              (wrapInt (copy + (a : Int) * (self.numberY.toNat : Int) + (d : Int))) := by
  induction m with
  | zero =>
    intro i copy cpv h
    rw [outerLoop]
    have hi : ¬ i < self.numberX := by omega
    simp [hi]
  | succ m ih =>
    intro i copy cpv h
    rw [outerLoop]
    have hi : i < self.numberX := by omega
    have hshift : (List.range m).flatMap (fun a : Nat =>
          (List.range self.numberY.toNat).filterMap fun d : Nat =>
            body DDSplit mother self (i + 1 + (a : Int)) (d : Int)
              (wrapInt (copy + (self.numberY.toNat : Int)
                + (a : Int) * (self.numberY.toNat : Int) + (d : Int)))) =
        (List.range m).flatMap ((fun a : Nat =>
          (List.range self.numberY.toNat).filterMap fun d : Nat =>
            body DDSplit mother self (i + (a : Int)) (d : Int)
              (wrapInt (copy + (a : Int) * (self.numberY.toNat : Int) + (d : Int)))) ∘
            Nat.succ) := by
      apply List.flatMap_congr
      intro a _
      simp only [Function.comp]
      apply List.filterMap_congr
      intro d _
      have e1 : i + 1 + (a : Int) = i + ((Nat.succ a : Nat) : Int) := by
        push_cast
        ring
      have e2 : copy + (self.numberY.toNat : Int) + (a : Int) * (self.numberY.toNat : Int)
            + (d : Int) =
          copy + ((Nat.succ a : Nat) : Int) * (self.numberY.toNat : Int) + (d : Int) := by
        push_cast
        ring
      rw [e1, e2]
    have hrow : (List.range self.numberY.toNat).filterMap (fun d : Nat =>
          body DDSplit mother self i (0 + (d : Int)) (wrapInt (copy + (d : Int)))) =
        (List.range self.numberY.toNat).filterMap (fun d : Nat =>
          body DDSplit mother self (i + ((0 : Nat) : Int)) (d : Int)
            (wrapInt (copy + ((0 : Nat) : Int) * (self.numberY.toNat : Int) + (d : Int)))) := by
      apply List.filterMap_congr
      intro d _
      have e1 : (0 : Int) + (d : Int) = (d : Int) := by ring
      have e2 : i + ((0 : Nat) : Int) = i := by simp
      have e3 : copy + ((0 : Nat) : Int) * (self.numberY.toNat : Int) + (d : Int) =
          copy + (d : Int) := by
        push_cast
        ring
      rw [e1, e2, e3]
    rw [if_pos hi]
    simp only [innerLoop_eq DDSplit mother self i self.numberY.toNat 0 copy cpv (by omega)]
    rw [ih (i + 1) _ _ (by omega), List.range_succ_eq_map, List.flatMap_cons, List.flatMap_map,
      hshift, hrow, List.append_assoc]
    rfl

/-- The calls made by `execute` are the expected ones, appended to the compact view. -/
theorem execute_eq (DDSplit : String → String × String) (mother : DDName)
    (self : DDHCalLinearXY R) (cpv : List (Positioned R)) :
    execute DDSplit mother self cpv = cpv ++ placements DDSplit mother self := by
  have h := outerLoop_eq DDSplit mother self self.numberX.toNat 0 0 cpv (by omega)
  rw [show wrapInt 0 = 0 from wrapInt_of_range 0 (by omega) (by omega)] at h
  unfold execute placements
  rw [h]
  refine congrArg (fun l => cpv ++ l) ?_
  apply List.flatMap_congr
  intro a _
  apply List.filterMap_congr
  intro d hd
  have hY : (self.numberY.toNat : Int) = self.numberY := by
    have := List.mem_range.mp hd
    omega
  have e1 : (0 : Int) + (a : Int) = (a : Int) := by ring
  have e2 : (0 : Int) + (a : Int) * (self.numberY.toNat : Int) + (d : Int) =
      (a : Int) * self.numberY + (d : Int) := by
    rw [hY]
    ring
  rw [e1, e2]

theorem body_eq_some_iff (DDSplit : String → String × String) (mother : DDName)
    (self : DDHCalLinearXY R) (i j copy : Int) (p : Positioned R) :
    body DDSplit mother self i j copy = some p ↔
      ∃ name, self.childName[nameIndex self copy]? = some name ∧ name ≠ " " ∧ name ≠ "Null" ∧
        p = ⟨⟨(DDSplit name).1, (DDSplit name).2⟩, mother, wrapInt (copy + 1), tran self i j,
          DDRotation.unnamed⟩ := by
  unfold body
  cases hname : self.childName[nameIndex self copy]? with
  | none => simp
  | some name =>
    by_cases hv : name ≠ " " ∧ name ≠ "Null"
    · dsimp only
      rw [if_pos hv]
      constructor
      · intro h
        exact ⟨name, rfl, hv.1, hv.2, (Option.some.inj h).symm⟩
      · rintro ⟨name', hn, _, _, hp⟩
        cases hn
        rw [hp]
    · dsimp only
      rw [if_neg hv]
      constructor
      · intro h
        cases h
      · rintro ⟨name', hn, h1, h2, _⟩
        cases hn
        exact absurd ⟨h1, h2⟩ hv

theorem mem_placements (DDSplit : String → String × String) (mother : DDName)
    (self : DDHCalLinearXY R) (p : Positioned R) :
    p ∈ placements DDSplit mother self ↔
      ∃ a d : Nat, a < self.numberX.toNat ∧ d < self.numberY.toNat ∧
        body DDSplit mother self (a : Int) (d : Int)
          (wrapInt ((a : Int) * self.numberY + (d : Int))) = some p := by
  unfold placements
  simp only [List.mem_flatMap, List.mem_filterMap, List.mem_range]
  constructor
  · rintro ⟨a, ha, d, hd, h⟩
    exact ⟨a, d, ha, hd, h⟩
  · rintro ⟨a, d, ha, hd, h⟩
    exact ⟨a, ha, d, hd, h⟩

/-- Membership in the calls of `execute`: the call of each grid slot that has a child.  The
name index and the copy number are the 32-bit values of the counter. -/
theorem mem_execute (DDSplit : String → String × String) (mother : DDName)
    (self : DDHCalLinearXY R) (p : Positioned R) :
    p ∈ execute DDSplit mother self [] ↔
      ∃ i j : Int, 0 ≤ i ∧ i < self.numberX ∧ 0 ≤ j ∧ j < self.numberY ∧
        ∃ name, self.childName[if self.childName.length = 1 then 0
            else ((i * self.numberY + j) % 4294967296).toNat]? = some name ∧
          name ≠ " " ∧ name ≠ "Null" ∧
          p = ⟨⟨(DDSplit name).1, (DDSplit name).2⟩, mother,
            wrapInt (i * self.numberY + j + 1), tran self i j, DDRotation.unnamed⟩ := by
  rw [execute_eq, List.nil_append, mem_placements]
  simp only [body_eq_some_iff, nameIndex, toUnsigned_wrapInt, wrapInt_wrapInt_add]
  constructor
  · rintro ⟨a, d, ha, hd, h⟩
    exact ⟨a, d, by omega, by omega, by omega, by omega, h⟩
  · rintro ⟨i, j, hi0, hi, hj0, hj, h⟩
    refine ⟨i.toNat, j.toNat, by omega, by omega, ?_⟩
    rw [Int.toNat_of_nonneg hi0, Int.toNat_of_nonneg hj0]
    exact h

theorem slot_range (nX nY i j : Int) (hi0 : 0 ≤ i) (hi : i < nX) (hj0 : 0 ≤ j) (hj : j < nY) :
    0 ≤ i * nY + j ∧ i * nY + j + 1 ≤ nX * nY := by
  have h1 : (i + 1) * nY ≤ nX * nY := by
    apply mul_le_mul_of_nonneg_right _ (by omega)
    omega
  have h2 : 0 ≤ i * nY := mul_nonneg hi0 (by omega)
  constructor
  · omega
  · nlinarith

theorem rowMajor_inj (n i j i' j' : Int) (hj0 : 0 ≤ j) (hj : j < n) (hj0' : 0 ≤ j')
    (hj' : j' < n) (h : i * n + j = i' * n + j') : i = i' ∧ j = j' := by
  have hi : i = i' := by
    rcases lt_trichotomy i i' with hlt | heq | hgt
    · exfalso
      have h1 : (i + 1) * n ≤ i' * n := by
        apply mul_le_mul_of_nonneg_right _ (by omega)
        omega
      nlinarith
    · exact heq
    · exfalso
      have h1 : (i' + 1) * n ≤ i * n := by
        apply mul_le_mul_of_nonneg_right _ (by omega)
        omega
      nlinarith
  subst hi
  exact ⟨rfl, by omega⟩

/-- Membership in the calls of `execute` for a grid of fewer than `2^31` slots, where the
counter does not overflow. -/
theorem mem_execute_bounded (DDSplit : String → String × String) (mother : DDName)
    (self : DDHCalLinearXY R) (hbound : self.numberX * self.numberY < 2147483648)
    (p : Positioned R) :
    p ∈ execute DDSplit mother self [] ↔
      ∃ i j : Int, 0 ≤ i ∧ i < self.numberX ∧ 0 ≤ j ∧ j < self.numberY ∧
        ∃ name, self.childName[if self.childName.length = 1 then 0
            else (i * self.numberY + j).toNat]? = some name ∧
          name ≠ " " ∧ name ≠ "Null" ∧
          p = ⟨⟨(DDSplit name).1, (DDSplit name).2⟩, mother,
            i * self.numberY + j + 1, tran self i j, DDRotation.unnamed⟩ := by
  rw [mem_execute]
  constructor
  · rintro ⟨i, j, hi0, hi, hj0, hj, name, hn, h1, h2, hp⟩
    obtain ⟨hk0, hk⟩ := slot_range self.numberX self.numberY i j hi0 hi hj0 hj
    have e1 : ((i * self.numberY + j) % 4294967296).toNat = (i * self.numberY + j).toNat := by
      omega
    have e2 : wrapInt (i * self.numberY + j + 1) = i * self.numberY + j + 1 :=
      wrapInt_of_range _ (by omega) (by omega)
    rw [e1] at hn
    rw [e2] at hp
    exact ⟨i, j, hi0, hi, hj0, hj, name, hn, h1, h2, hp⟩
  · rintro ⟨i, j, hi0, hi, hj0, hj, name, hn, h1, h2, hp⟩
    obtain ⟨hk0, hk⟩ := slot_range self.numberX self.numberY i j hi0 hi hj0 hj
    have e1 : ((i * self.numberY + j) % 4294967296).toNat = (i * self.numberY + j).toNat := by
      omega
    have e2 : wrapInt (i * self.numberY + j + 1) = i * self.numberY + j + 1 :=
      wrapInt_of_range _ (by omega) (by omega)
    rw [← e1] at hn
    rw [← e2] at hp
    exact ⟨i, j, hi0, hi, hj0, hj, name, hn, h1, h2, hp⟩

theorem placements_pairwise (DDSplit : String → String × String) (mother : DDName)
    (self : DDHCalLinearXY R) (hbound : self.numberX * self.numberY < 2147483648) :
    (placements DDSplit mother self).Pairwise (fun p q => p.copy < q.copy) := by
  have hcopy : ∀ a d : Nat, a < self.numberX.toNat → d < self.numberY.toNat →
      wrapInt (wrapInt ((a : Int) * self.numberY + (d : Int)) + 1) =
        (a : Int) * self.numberY + (d : Int) + 1 := by
    intro a d ha hd
    obtain ⟨hk0, hk⟩ := slot_range self.numberX self.numberY a d (by omega) (by omega)
      (by omega) (by omega)
    rw [wrapInt_wrapInt_add]
    exact wrapInt_of_range _ (by omega) (by omega)
  unfold placements
  rw [List.pairwise_flatMap]
  constructor
  · intro a ha
    have ha := List.mem_range.mp ha
    have hrange : (List.range self.numberY.toNat).Pairwise
        (fun d d' => d < d' ∧ d' < self.numberY.toNat) :=
      List.Pairwise.imp_of_mem (fun _ hb hlt => ⟨hlt, List.mem_range.mp hb⟩)
        (List.pairwise_lt_range _)
    refine List.Pairwise.filterMap _ ?_ hrange
    rintro d d' ⟨hdd, hd'⟩ p hp q hq
    obtain ⟨_, _, _, _, rfl⟩ := (body_eq_some_iff _ _ _ _ _ _ _).mp hp
    obtain ⟨_, _, _, _, rfl⟩ := (body_eq_some_iff _ _ _ _ _ _ _).mp hq
    simp only
    rw [hcopy a d ha (by omega), hcopy a d' ha hd']
    omega
  · refine List.Pairwise.imp_of_mem ?_ (List.pairwise_lt_range _)
    intro a a' ha ha' haa p hp q hq
    have ha := List.mem_range.mp ha
    have ha' := List.mem_range.mp ha'
    obtain ⟨d, hd, hp⟩ := List.mem_filterMap.mp hp
    obtain ⟨d', hd', hq⟩ := List.mem_filterMap.mp hq
    obtain ⟨_, _, _, _, rfl⟩ := (body_eq_some_iff _ _ _ _ _ _ _).mp hp
    obtain ⟨_, _, _, _, rfl⟩ := (body_eq_some_iff _ _ _ _ _ _ _).mp hq
    simp only
    have hd := List.mem_range.mp hd
    have hd' := List.mem_range.mp hd'
    rw [hcopy a d ha hd, hcopy a' d' ha' hd']
    have hY : 0 < self.numberY := by omega
    have h1 : ((a : Int) + 1) * self.numberY ≤ (a' : Int) * self.numberY := by
      apply mul_le_mul_of_nonneg_right _ (by omega)
      omega
    have h2 : (d : Int) < self.numberY := by omega
    nlinarith

end Lemmas

/-! ## Properties of `execute` -/

section Properties

variable {R K : Type}

theorem bigGrid_last :
    ∃ p ∈ execute splitAll HB bigGrid [],
      p.copy = -2147483648 ∧ p.tran = tran bigGrid 32767 65535 := by
  refine ⟨⟨⟨"A", "hcalalgo"⟩, HB, -2147483648, tran bigGrid 32767 65535, DDRotation.unnamed⟩,
    (mem_execute _ _ _ _).mpr ⟨32767, 65535, by decide, by decide, by decide, by decide,
      "A", rfl, by decide, by decide, ?_⟩, rfl, rfl⟩
  have hc : wrapInt (32767 * bigGrid.numberY + 65535 + 1) = -2147483648 := by
    have hY : bigGrid.numberY = 65536 := rfl
    rw [hY]
    unfold wrapInt
    omega
  rw [hc]
  rfl

/-- C10 (as stated, refuted): in a grid of 32768 x 65536 copies of one child the last slot,
`(32767, 65535)`, of row-major index `k = 2^31 - 1`, has a child, but no placement has the
copy number `k + 1 = 2^31`: the `int` counter overflows and the slot is placed with the copy
number `-2^31`, which is below 1 and below the copy numbers placed before it. -/
theorem bigGrid_counterexample :
    (32767 * bigGrid.numberY + 65535 + 1 = 2147483648 ∧
      bigGrid.numberX * bigGrid.numberY = 2147483648 ∧
      bigGrid.childName[if bigGrid.childName.length = 1 then 0
        else (32767 * bigGrid.numberY + 65535).toNat]? = some "A") ∧
    (¬ ∃ p ∈ execute splitAll HB bigGrid [], p.copy = 2147483648) ∧
    (∃ p ∈ execute splitAll HB bigGrid [],
      p.copy = -2147483648 ∧ p.tran = tran bigGrid 32767 65535) ∧
    ¬ (∀ p ∈ execute splitAll HB bigGrid [],
      1 ≤ p.copy ∧ p.copy ≤ bigGrid.numberX * bigGrid.numberY) := by
  refine ⟨⟨by decide, by decide, rfl⟩, ?_, bigGrid_last, ?_⟩
  · rintro ⟨p, hp, hc⟩
    obtain ⟨i, j, _, _, _, _, name, _, _, _, rfl⟩ := (mem_execute _ _ _ _).mp hp
    have := wrapInt_lt (i * bigGrid.numberY + j + 1)
    simp only at hc
    omega
  · intro hall
    obtain ⟨p, hp, hc, _⟩ := bigGrid_last
    have := (hall p hp).1
    omega

/-- The call made for a grid slot is found from its copy number. -/
theorem slot_of_copy [Add R] [Sub R] [Mul R] [Div R] [IntCast R] [OfNat R 2]
    (DDSplit : String → String × String) (mother : DDName) (self : DDHCalLinearXY R)
    (hbound : self.numberX * self.numberY < 2147483648)
    (i j : Int) (hj0 : 0 ≤ j) (hj : j < self.numberY) (p : Positioned R)
    (hp : p ∈ execute DDSplit mother self []) (hc : p.copy = i * self.numberY + j + 1) :
    ∃ name, self.childName[if self.childName.length = 1 then 0
        else (i * self.numberY + j).toNat]? = some name ∧ name ≠ " " ∧ name ≠ "Null" ∧
      p = ⟨⟨(DDSplit name).1, (DDSplit name).2⟩, mother, i * self.numberY + j + 1,
        tran self i j, DDRotation.unnamed⟩ := by
  obtain ⟨i', j', _, _, hj0', hj', name, hn, h1, h2, hpe⟩ :=
    (mem_execute_bounded _ _ _ hbound _).mp hp
  have hc' : p.copy = i' * self.numberY + j' + 1 := by rw [hpe]
  have heq : i * self.numberY + j = i' * self.numberY + j' := by omega
  obtain ⟨hi, hjj⟩ := rowMajor_inj self.numberY i j i' j' hj0 hj hj0' hj' heq
  rw [hi, hjj]
  exact ⟨name, hn, h1, h2, hpe⟩

/-- C10 (amended): when `numberX * numberY < 2^31`, so that the `int` counter `copy` does not
overflow: for the grid slot `(i, j)`, of row-major index `k = i * numberY + j`, a child is
placed (a placement with copy number `k + 1` is made) if and only if the name at the selected
index (0 when there is exactly one name, else `k`) exists and is neither " " nor "Null"; the
placement with copy number `k + 1` is that of the child named by that entry, in the given
mother, at the translation of the slot.  The copy numbers of the placements increase
strictly in placement order (so they are pairwise distinct) and lie between 1 and
`numberX * numberY`. -/
theorem execute_copy_numbers [Add R] [Sub R] [Mul R] [Div R] [IntCast R] [OfNat R 2]
    (DDSplit : String → String × String) (mother : DDName) (self : DDHCalLinearXY R)
    (hbound : self.numberX * self.numberY < 2147483648) :
    (∀ i j : Int, 0 ≤ i → i < self.numberX → 0 ≤ j → j < self.numberY →
      ((∃ p ∈ execute DDSplit mother self [], p.copy = i * self.numberY + j + 1) ↔
        ∃ name, self.childName[if self.childName.length = 1 then 0
          else (i * self.numberY + j).toNat]? = some name ∧ name ≠ " " ∧ name ≠ "Null") ∧
      (∀ p ∈ execute DDSplit mother self [], p.copy = i * self.numberY + j + 1 →
        ∃ name, self.childName[if self.childName.length = 1 then 0
            else (i * self.numberY + j).toNat]? = some name ∧
          p.child = ⟨(DDSplit name).1, (DDSplit name).2⟩ ∧ p.mother = mother ∧
          p.tran = tran self i j)) ∧
    (execute DDSplit mother self []).Pairwise (fun p q => p.copy < q.copy) ∧
    (∀ p ∈ execute DDSplit mother self [],
      1 ≤ p.copy ∧ p.copy ≤ self.numberX * self.numberY) := by
  refine ⟨?_, ?_, ?_⟩
  · intro i j hi0 hi hj0 hj
    constructor
    · constructor
      · rintro ⟨p, hp, hc⟩
        obtain ⟨name, hn, h1, h2, _⟩ :=
          slot_of_copy DDSplit mother self hbound i j hj0 hj p hp hc
        exact ⟨name, hn, h1, h2⟩
      · rintro ⟨name, hn, h1, h2⟩
        exact ⟨_, (mem_execute_bounded _ _ _ hbound _).mpr
          ⟨i, j, hi0, hi, hj0, hj, name, hn, h1, h2, rfl⟩, rfl⟩
    · intro p hp hc
      obtain ⟨name, hn, _, _, hpe⟩ :=
        slot_of_copy DDSplit mother self hbound i j hj0 hj p hp hc
      exact ⟨name, hn, by rw [hpe], by rw [hpe], by rw [hpe]⟩
  · rw [execute_eq, List.nil_append]
    exact placements_pairwise _ _ _ hbound
  · intro p hp
    obtain ⟨i, j, hi0, hi, hj0, hj, _, _, _, _, hpe⟩ :=
      (mem_execute_bounded _ _ _ hbound _).mp hp
    obtain ⟨hk0, hk⟩ := slot_range self.numberX self.numberY i j hi0 hi hj0 hj
    rw [hpe]
    simp only
    constructor
    · omega
    · omega

/-- The 2 x 3 grid of copies of one child, evaluated: six placements, copy numbers 1 to 6,
x in -4, 6 and y in -2, 2, 6 around the centre (1, 2). -/
theorem grid23_execute :
    execute splitAll HB grid23 [] =
      [⟨⟨"A", "hcalalgo"⟩, HB, 1, ⟨-4, -2, 7⟩, DDRotation.unnamed⟩,
        ⟨⟨"A", "hcalalgo"⟩, HB, 2, ⟨-4, 2, 7⟩, DDRotation.unnamed⟩,
        ⟨⟨"A", "hcalalgo"⟩, HB, 3, ⟨-4, 6, 7⟩, DDRotation.unnamed⟩,
        ⟨⟨"A", "hcalalgo"⟩, HB, 4, ⟨6, -2, 7⟩, DDRotation.unnamed⟩,
        ⟨⟨"A", "hcalalgo"⟩, HB, 5, ⟨6, 2, 7⟩, DDRotation.unnamed⟩,
        ⟨⟨"A", "hcalalgo"⟩, HB, 6, ⟨6, 6, 7⟩, DDRotation.unnamed⟩] := by
  have w1 : wrapInt 1 = 1 := wrapInt_of_range 1 (by omega) (by omega)
  have w2 : wrapInt 2 = 2 := wrapInt_of_range 2 (by omega) (by omega)
  have w3 : wrapInt 3 = 3 := wrapInt_of_range 3 (by omega) (by omega)
  have w4 : wrapInt 4 = 4 := wrapInt_of_range 4 (by omega) (by omega)
  have w5 : wrapInt 5 = 5 := wrapInt_of_range 5 (by omega) (by omega)
  have w6 : wrapInt 6 = 6 := wrapInt_of_range 6 (by omega) (by omega)
  unfold execute
  rw [outerLoop]
  simp [outerLoop, innerLoop, body, nameIndex, tran, xoff, yoff, grid23, splitAll, w1, w2, w3,
    w4, w5, w6]
  norm_num

/-- The placement criterion on the last slot of the 2 x 3 grid. -/
theorem execute_copy_numbers_witness :
    (grid23.numberX * grid23.numberY < 2147483648 ∧
      (0 : Int) ≤ 1 ∧ (1 : Int) < grid23.numberX ∧ (0 : Int) ≤ 2 ∧ (2 : Int) < grid23.numberY) ∧
    ((∃ p ∈ execute splitAll HB grid23 [], p.copy = 1 * grid23.numberY + 2 + 1) ↔
      ∃ name, grid23.childName[if grid23.childName.length = 1 then 0
        else (1 * grid23.numberY + 2).toNat]? = some name ∧ name ≠ " " ∧ name ≠ "Null") :=
  ⟨by decide,
    ((execute_copy_numbers splitAll HB grid23 (by decide)).1 1 2 (by decide) (by decide)
      (by decide) (by decide)).1⟩

end Properties

end HCalLinearXY
